import Mathlib

/-!
# sentryhook: a logrus hook that forwards log entries to Sentry

A shallow embedding of `sentryhook.go`.

* Go maps used as sets (`map[logrus.Level]struct{}`) are finite sets of levels.
* The field map of a log entry (`logrus.Fields`) is an association list with
  pairwise distinct keys; the order of its entries is the order in which a
  `range` loop visits them, so a statement about every such list is a statement
  about every iteration order.
* The tag map built for the Sentry client is a finite map.
* A `range` loop over a level set visits its keys in an order given by a
  `RangeOrder`, every key once; `Levels` takes one order for each of its loops.
* A method call on the sender is recorded as a value of `SenderCall`; the
  functions that call the sender return the list of calls they made, in order.
* A Go `error` result is `Option String`: `none` is `nil`, `some s` an error
  whose text is `s`.

The collaborators that live outside the package are parameters: the textual
name of a level (`logrus.Level.String`, used by the `%v` verb), the default
rendering of a value (`fmt.Sprint`), the type assertion `v.(error)` and
`raven.DefaultClient`.
-/

namespace sentryhook

/-! ## Types of the collaborating packages -/

/-- The type `logrus.Level`, an unsigned integer used only as a lookup key. -/
abbrev logrus.Level := Nat

/-- The constant `logrus.PanicLevel`. -/
def logrus.PanicLevel : logrus.Level := 0
/-- The constant `logrus.FatalLevel`. -/
def logrus.FatalLevel : logrus.Level := 1
/-- The constant `logrus.ErrorLevel`. -/
def logrus.ErrorLevel : logrus.Level := 2
/-- The constant `logrus.WarnLevel`. -/
def logrus.WarnLevel : logrus.Level := 3
/-- The constant `logrus.InfoLevel`. -/
def logrus.InfoLevel : logrus.Level := 4
/-- The constant `logrus.DebugLevel`. -/
def logrus.DebugLevel : logrus.Level := 5
/-- The constant `logrus.TraceLevel`. -/
def logrus.TraceLevel : logrus.Level := 6

/-- The constant `logrus.ErrorKey`, the reserved key of the attached error. -/
def logrus.ErrorKey : String := "error"

/-- The type `logrus.Fields`, a `map[string]interface{}` over values of type `V`:
distinct keys, listed in iteration order. -/
abbrev logrus.Fields (V : Type) := AList (fun _ : String => V)

/-- The part of `logrus.Entry` the hook reads. -/
structure logrus.Entry (V : Type) where
  Level : logrus.Level
  Message : String
  Data : logrus.Fields V

/-- The values passed as `raven.Interface`; the hook only ever builds a
`raven.Message` with its `Message` field set. -/
inductive raven.Interface where
  | Message (Message : String)
  deriving DecidableEq, Repr

/-- A `map[string]string`. -/
abbrev Tags := Finmap (fun _ : String => String)

/-- One call of a method of the interface `SentrySender`, with its arguments.
The type `E` is the type of Go error values. -/
inductive SenderCall (E : Type) where
  | CaptureMessage (message : String) (tags : Tags) (interfaces : List raven.Interface)
  | CaptureError (err : E) (tags : Tags) (interfaces : List raven.Interface)
  | CaptureMessageAndWait (message : String) (tags : Tags) (interfaces : List raven.Interface)
  | CaptureErrorAndWait (err : E) (tags : Tags) (interfaces : List raven.Interface)
  deriving DecidableEq

/-- Whether the called method is one of the two `...AndWait` methods. -/
def SenderCall.waits {E : Type} : SenderCall E → Bool
  | .CaptureMessage _ _ _ => false
  | .CaptureError _ _ _ => false
  | .CaptureMessageAndWait _ _ _ => true
  | .CaptureErrorAndWait _ _ _ => true

/-! ## The hook -/

/-- The struct `SentryHook`; `S` is the type of senders. -/
structure SentryHook (S : Type) where
  asyncLevels : Finset logrus.Level
  syncLevels : Finset logrus.Level
  sender : S

/-- The constructor `New`: a nil client (`none`) is replaced by
`raven.DefaultClient`, both level sets start empty. -/
def New {S : Type} (DefaultClient : S) (client : Option S) : SentryHook S :=
  let client := match client with
    | none => DefaultClient
    | some c => c
  { asyncLevels := ∅, syncLevels := ∅, sender := client }

/-- The method `SetAsync`: the loop over `levels`, returning the hook as the
call leaves it together with the returned error. `levelString` renders a level
under the `%v` verb. -/
def SetAsync {S : Type} (levelString : logrus.Level → String) (hook : SentryHook S) :
    List logrus.Level → SentryHook S × Option String
  | [] => (hook, none)
  | l :: levels =>
    if l ∈ hook.syncLevels then
      (hook, some ("Log level " ++ levelString l ++ " already in sync levels"))
    else
      SetAsync levelString { hook with asyncLevels := insert l hook.asyncLevels } levels

/-- The method `SetSync`: the loop over `levels`, returning the hook as the
call leaves it together with the returned error. -/
def SetSync {S : Type} (levelString : logrus.Level → String) (hook : SentryHook S) :
    List logrus.Level → SentryHook S × Option String
  | [] => (hook, none)
  | l :: levels =>
    if l ∈ hook.asyncLevels then
      (hook, some ("Log level " ++ levelString l ++ " already in async levels"))
    else
      SetSync levelString { hook with syncLevels := insert l hook.syncLevels } levels

/-- The method `makeTags`: the loop over the fields, starting from the empty
map; the reserved key is skipped, every other value is rendered by `Sprint`. -/
def makeTags {V : Type} (Sprint : V → String) (fields : logrus.Fields V) : Tags :=
  fields.entries.foldl
    (fun tags kv => if kv.1 = logrus.ErrorKey then tags else tags.insert kv.1 (Sprint kv.2))
    ∅

/-- The expression `entry.Data[logrus.ErrorKey].(error)`: the value stored
under the reserved key, when there is one and `asError` accepts it. -/
def loggedErr {V E : Type} (asError : V → Option E) (entry : logrus.Entry V) : Option E :=
  (entry.Data.lookup logrus.ErrorKey).bind asError

/-- The method `sendAsync`: the calls made on `hook.sender`. -/
def sendAsync {S V E : Type} (Sprint : V → String) (asError : V → Option E)
    (hook : SentryHook S) (entry : logrus.Entry V) : List (S × SenderCall E) :=
  let tags := makeTags Sprint entry.Data
  match loggedErr asError entry with
  | none => [(hook.sender, .CaptureMessage entry.Message tags [])]
  | some err => [(hook.sender, .CaptureError err tags [raven.Interface.Message entry.Message])]

/-- The method `sendSync`: the calls made on `hook.sender`. -/
def sendSync {S V E : Type} (Sprint : V → String) (asError : V → Option E)
    (hook : SentryHook S) (entry : logrus.Entry V) : List (S × SenderCall E) :=
  let tags := makeTags Sprint entry.Data
  match loggedErr asError entry with
  | none => [(hook.sender, .CaptureMessageAndWait entry.Message tags [])]
  | some err =>
    [(hook.sender, .CaptureErrorAndWait err tags [raven.Interface.Message entry.Message])]

/-- The method `Fire`: the calls made on the sender and the returned error.
The hook itself is not written to. -/
def Fire {S V E : Type} (Sprint : V → String) (asError : V → Option E)
    (hook : SentryHook S) (entry : logrus.Entry V) : List (S × SenderCall E) × Option String :=
  if entry.Level ∈ hook.asyncLevels then
    (sendAsync Sprint asError hook entry, none)
  else if entry.Level ∈ hook.syncLevels then
    (sendSync Sprint asError hook entry, none)
  else
    ([], none)

/-! ## Sequences of calls on a hook -/

/-- One call of an exported method that may run on a hook after `New`. -/
inductive Op (V : Type) where
  | SetAsync (levels : List logrus.Level)
  | SetSync (levels : List logrus.Level)
  | Fire (entry : logrus.Entry V)

/-- The hook after one call, whether the call returned an error or not. The
method `Fire` and the methods it calls never assign to a field of the hook. -/
def step {S V : Type} (levelString : logrus.Level → String) (hook : SentryHook S) :
    Op V → SentryHook S
  | .SetAsync levels => (SetAsync levelString hook levels).1
  | .SetSync levels => (SetSync levelString hook levels).1
  | .Fire _ => hook

/-- The hook after a finite sequence of calls, run from left to right. -/
def run {S V : Type} (levelString : logrus.Level → String) (hook : SentryHook S)
    (ops : List (Op V)) : SentryHook S :=
  ops.foldl (step levelString) hook

/-! ## The level query -/

/-- The order in which one `range` loop visits the keys of the set `m`: every
key exactly once, in an order the runtime is free to choose anew for each loop. -/
structure RangeOrder (m : Finset logrus.Level) where
  keys : List logrus.Level
  nodup : keys.Nodup
  complete : keys.toFinset = m

/-- An iteration order exists for every set, for instance by increasing level. -/
def RangeOrder.increasing (m : Finset logrus.Level) : RangeOrder m :=
  ⟨m.sort (· ≤ ·), Finset.sort_nodup _ m, Finset.sort_toFinset _ m⟩

/-- The method `Levels`: starting from the empty slice, the first loop appends
the keys of `asyncLevels` in the order `asyncRange` visits them, the second
loop the keys of `syncLevels` in the order `syncRange` visits them. -/
def Levels {S : Type} (hook : SentryHook S) (asyncRange : RangeOrder hook.asyncLevels)
    (syncRange : RangeOrder hook.syncLevels) : List logrus.Level :=
  let levels : List logrus.Level := []
  let levels := asyncRange.keys.foldl (fun levels l => levels ++ [l]) levels
  let levels := syncRange.keys.foldl (fun levels l => levels ++ [l]) levels
  levels

/-! ## Definitions that follow the wording of the specification -/

/-- The replacement of the client method named by the specification for the
two send paths: `CaptureMessage` becomes `CaptureMessageAndWait` and
`CaptureError` becomes `CaptureErrorAndWait`, with the arguments kept. -/
def SenderCall.andWait {E : Type} : SenderCall E → SenderCall E
  | .CaptureMessage message tags interfaces => .CaptureMessageAndWait message tags interfaces
  | .CaptureError err tags interfaces => .CaptureErrorAndWait err tags interfaces
  | .CaptureMessageAndWait message tags interfaces =>
    .CaptureMessageAndWait message tags interfaces
  | .CaptureErrorAndWait err tags interfaces => .CaptureErrorAndWait err tags interfaces

/-- The variant of `Fire` that tests `syncLevels` first and `asyncLevels`
second; it is not part of the package and only serves as a term of comparison. -/
def FireSyncFirst {S V E : Type} (Sprint : V → String) (asError : V → Option E)
    (hook : SentryHook S) (entry : logrus.Entry V) : List (S × SenderCall E) × Option String :=
  if entry.Level ∈ hook.syncLevels then
    (sendSync Sprint asError hook entry, none)
  else if entry.Level ∈ hook.asyncLevels then
    (sendAsync Sprint asError hook entry, none)
  else
    ([], none)

/-- Whether the called method is `CaptureMessage` or `CaptureMessageAndWait`. -/
def SenderCall.isMessage {E : Type} : SenderCall E → Bool
  | .CaptureMessage _ _ _ => true
  | .CaptureError _ _ _ => false
  | .CaptureMessageAndWait _ _ _ => true
  | .CaptureErrorAndWait _ _ _ => false

/-- A hook that no call sequence from `New` produces: the error level is in
both sets. -/
def overlapHook : SentryHook Nat :=
  { asyncLevels := {logrus.ErrorLevel}, syncLevels := {logrus.ErrorLevel}, sender := 0 }

/-! ## Concrete collaborators, used to evaluate the examples of the test file -/

/-- Modelled from the spec: the method `String` of `logrus.Level` (package logrus,
outside this repository), which the `%v` verb calls; the test file expects
`panic` and `error` for the panic and error levels. -/
def logrus.levelString (l : logrus.Level) : String :=
  match l with
  | 0 => "panic"
  | 1 => "fatal"
  | 2 => "error"
  | 3 => "warning"
  | 4 => "info"
  | 5 => "debug"
  | 6 => "trace"
  | _ => "unknown"

/-- A small universe of Go values stored in the fields of an entry: integers,
strings, errors made by `errors.New`, maps from strings to integers (entries
listed by increasing key), and the nil interface value. -/
inductive GoValue where
  | int (n : Int)
  | string (s : String)
  | errorString (s : String)
  | mapStringInt (m : List (String × Int))
  | nil
  deriving DecidableEq

/-- Modelled from the spec: the default rendering `fmt.Sprint` (Go standard
library, outside this repository) on the values of `GoValue`: numbers in
decimal, a map as `map[k:v k:v]`, an error as its text. -/
def GoValue.Sprint : GoValue → String
  | .int n => toString n
  | .string s => s
  | .errorString s => s
  | .mapStringInt m =>
    "map[" ++ " ".intercalate (m.map (fun kv => kv.1 ++ ":" ++ toString kv.2)) ++ "]"
  | .nil => "<nil>"

/-- The type assertion `v.(error)` on the values of `GoValue`: only the values
made by `errors.New` implement `error`; the result is the error text. -/
def GoValue.asError : GoValue → Option String
  | .errorString s => some s
  | _ => none

/-- The fields of `TestMakeTags`. -/
def testFields : logrus.Fields GoValue :=
  (((∅ : logrus.Fields GoValue).insert "BBB" (.mapStringInt [("aaa", 123)])).insert
    logrus.ErrorKey (.errorString "some error")).insert "AAA" (.int 123)

/-- The tags `TestMakeTags` expects. -/
def wantTags : Tags :=
  ((∅ : Tags).insert "AAA" "123").insert "BBB" "map[aaa:123]"

/-- The hook of `TestSettingLevels` after its two successful calls, with the
sender numbered `0` as the default client. -/
def testHook : SentryHook Nat :=
  (SetSync logrus.levelString
    (SetAsync logrus.levelString (New 0 none) [logrus.ErrorLevel]).1 [logrus.PanicLevel]).1

/-- The one order in which a loop can visit the async levels of `testHook`. -/
def testAsyncRange : RangeOrder testHook.asyncLevels :=
  ⟨[logrus.ErrorLevel], by decide, by decide⟩

/-- The one order in which a loop can visit the sync levels of `testHook`. -/
def testSyncRange : RangeOrder testHook.syncLevels :=
  ⟨[logrus.PanicLevel], by decide, by decide⟩

/-- An entry in the manner of `TestLogHook`: logged at the error level with the
fields of `testFields`, which hold an error under the reserved key. -/
def errorEntry : logrus.Entry GoValue :=
  { Level := logrus.ErrorLevel, Message := "some message", Data := testFields }

/-- An entry logged at the panic level whose reserved key holds a string, which
is not of error type. -/
def panicEntry : logrus.Entry GoValue :=
  { Level := logrus.PanicLevel, Message := "some message",
    Data := (∅ : logrus.Fields GoValue).insert logrus.ErrorKey (.string "not an error") }

/-- An entry logged at the warning level, without fields. -/
def warnEntry : logrus.Entry GoValue :=
  { Level := logrus.WarnLevel, Message := "some message", Data := ∅ }

/-! ## The registration loops in closed form -/

/-- The text of the error `SetAsync` returns for the level `l`. -/
def syncConflict (levelString : logrus.Level → String) (l : logrus.Level) : String :=
  "Log level " ++ levelString l ++ " already in sync levels"

/-- The text of the error `SetSync` returns for the level `l`. -/
def asyncConflict (levelString : logrus.Level → String) (l : logrus.Level) : String :=
  "Log level " ++ levelString l ++ " already in async levels"

theorem SetAsync_closed {S : Type} (levelString : logrus.Level → String)
    (hook : SentryHook S) (levels : List logrus.Level) :
    SetAsync levelString hook levels =
      ({ hook with
          asyncLevels := hook.asyncLevels ∪
            (levels.takeWhile (fun l => decide (l ∉ hook.syncLevels))).toFinset },
        (levels.find? (fun l => decide (l ∈ hook.syncLevels))).map (syncConflict levelString)) := by
  induction levels generalizing hook with
  | nil => simp [SetAsync]
  | cons l levels ih =>
    by_cases h : l ∈ hook.syncLevels
    · simp [SetAsync, h, syncConflict]
    · simp [SetAsync, h, ih, List.find?_cons]

theorem SetSync_closed {S : Type} (levelString : logrus.Level → String)
    (hook : SentryHook S) (levels : List logrus.Level) :
    SetSync levelString hook levels =
      ({ hook with
          syncLevels := hook.syncLevels ∪
            (levels.takeWhile (fun l => decide (l ∉ hook.asyncLevels))).toFinset },
        (levels.find? (fun l => decide (l ∈ hook.asyncLevels))).map (asyncConflict levelString)) := by
  induction levels generalizing hook with
  | nil => simp [SetSync]
  | cons l levels ih =>
    by_cases h : l ∈ hook.asyncLevels
    · simp [SetSync, h, asyncConflict]
    · simp [SetSync, h, ih, List.find?_cons]

/-! ## The tag loop in closed form -/

theorem makeTags_loop {V : Type} (Sprint : V → String)
    (l : List (Sigma fun _ : String => V)) (hl : l.NodupKeys) (acc : Tags) (k : String) :
    (l.foldl
      (fun tags kv => if kv.1 = logrus.ErrorKey then tags else tags.insert kv.1 (Sprint kv.2))
      acc).lookup k =
      if k = logrus.ErrorKey then acc.lookup k
      else (l.dlookup k).elim (acc.lookup k) (fun v => some (Sprint v)) := by
  induction l generalizing acc with
  | nil => simp
  | cons kv l ih =>
    obtain ⟨a, v⟩ := kv
    rw [List.nodupKeys_cons] at hl
    rw [List.foldl_cons, ih hl.2]
    by_cases hk : k = logrus.ErrorKey
    · subst hk
      by_cases ha : a = logrus.ErrorKey
      · simp [ha]
      · simp only [ha, if_false, if_true]
        exact Finmap.lookup_insert_of_ne _ (fun h => ha h.symm)
    · simp only [hk, if_false]
      by_cases hak : a = k
      · subst hak
        have hnone : l.dlookup a = none := List.dlookup_eq_none.mpr hl.1
        simp [hk, hnone, List.dlookup_cons_eq]
      · have hka : k ≠ a := fun h => hak h.symm
        rw [List.dlookup_cons_ne _ _ hka]
        by_cases ha : a = logrus.ErrorKey
        · simp [ha]
        · simp only [ha, if_false]
          rw [Finmap.lookup_insert_of_ne _ hka]

theorem makeTags_lookup {V : Type} (Sprint : V → String) (fields : logrus.Fields V)
    (k : String) :
    (makeTags Sprint fields).lookup k =
      if k = logrus.ErrorKey then none else (fields.lookup k).map Sprint := by
  unfold makeTags
  rw [makeTags_loop Sprint fields.entries fields.nodupKeys]
  by_cases hk : k = logrus.ErrorKey
  · simp [hk]
  · simp only [hk, if_false, AList.lookup]
    cases List.dlookup k fields.entries <;> simp

/-! ## Disjointness is kept by every call -/

theorem step_disjoint {S V : Type} (levelString : logrus.Level → String)
    (hook : SentryHook S) (op : Op V) (h : Disjoint hook.asyncLevels hook.syncLevels) :
    Disjoint (step levelString hook op).asyncLevels (step levelString hook op).syncLevels := by
  cases op with
  | SetAsync levels =>
    simp only [step, SetAsync_closed]
    rw [Finset.disjoint_union_left]
    refine ⟨h, ?_⟩
    rw [Finset.disjoint_left]
    intro a ha
    rw [List.mem_toFinset] at ha
    simpa using List.mem_takeWhile_imp ha
  | SetSync levels =>
    simp only [step, SetSync_closed]
    rw [Finset.disjoint_union_right]
    refine ⟨h, ?_⟩
    rw [Finset.disjoint_right]
    intro a ha
    rw [List.mem_toFinset] at ha
    simpa using List.mem_takeWhile_imp ha
  | Fire entry => exact h

theorem run_disjoint {S V : Type} (levelString : logrus.Level → String)
    (ops : List (Op V)) (hook : SentryHook S)
    (h : Disjoint hook.asyncLevels hook.syncLevels) :
    Disjoint (run levelString hook ops).asyncLevels (run levelString hook ops).syncLevels := by
  induction ops generalizing hook with
  | nil => exact h
  | cons op ops ih => exact ih _ (step_disjoint levelString hook op h)

/-! ## The level query in closed form -/

theorem append_loop (visited levels : List logrus.Level) :
    visited.foldl (fun levels l => levels ++ [l]) levels = levels ++ visited := by
  induction visited generalizing levels with
  | nil => simp
  | cons l visited ih => simp [ih]

theorem Levels_closed {S : Type} (hook : SentryHook S)
    (asyncRange : RangeOrder hook.asyncLevels) (syncRange : RangeOrder hook.syncLevels) :
    Levels hook asyncRange syncRange = asyncRange.keys ++ syncRange.keys := by
  simp [Levels, append_loop]

theorem RangeOrder.mem_keys {m : Finset logrus.Level} (r : RangeOrder m)
    (l : logrus.Level) : l ∈ r.keys ↔ l ∈ m := by
  rw [← List.mem_toFinset, r.complete]

theorem RangeOrder.length_keys {m : Finset logrus.Level} (r : RangeOrder m) :
    r.keys.length = m.card := by
  have h : r.keys.toFinset = m := r.complete
  have hcard := List.toFinset_card_of_nodup r.nodup
  rw [h] at hcard
  exact hcard.symm

theorem RangeOrder.keys_singleton {m : Finset logrus.Level} {a : logrus.Level}
    (r : RangeOrder m) (hm : m = {a}) : r.keys = [a] := by
  subst hm
  have hlen : r.keys.length = 1 := by rw [r.length_keys]; rfl
  have hmem : a ∈ r.keys := (r.mem_keys a).mpr (Finset.mem_singleton_self a)
  obtain ⟨b, hb⟩ := List.length_eq_one.mp hlen
  rw [hb] at hmem
  rw [hb, List.mem_singleton.mp hmem]

/-! ## No call removes a level -/

theorem step_mono {S V : Type} (levelString : logrus.Level → String)
    (hook : SentryHook S) (op : Op V) :
    hook.asyncLevels ⊆ (step levelString hook op).asyncLevels ∧
    hook.syncLevels ⊆ (step levelString hook op).syncLevels := by
  cases op with
  | SetAsync levels =>
    simp only [step, SetAsync_closed]
    exact ⟨Finset.subset_union_left, Finset.Subset.refl _⟩
  | SetSync levels =>
    simp only [step, SetSync_closed]
    exact ⟨Finset.Subset.refl _, Finset.subset_union_left⟩
  | Fire entry => exact ⟨Finset.Subset.refl _, Finset.Subset.refl _⟩

theorem run_mono {S V : Type} (levelString : logrus.Level → String)
    (ops : List (Op V)) (hook : SentryHook S) :
    hook.asyncLevels ⊆ (run levelString hook ops).asyncLevels ∧
    hook.syncLevels ⊆ (run levelString hook ops).syncLevels := by
  induction ops generalizing hook with
  | nil => exact ⟨Finset.Subset.refl _, Finset.Subset.refl _⟩
  | cons op ops ih =>
    have h1 := step_mono levelString hook op
    have h2 := ih (step levelString hook op)
    exact ⟨h1.1.trans h2.1, h1.2.trans h2.2⟩

/-! ## The erased reserved key -/

theorem makeTags_erase {V : Type} (Sprint : V → String) (fields : logrus.Fields V) :
    makeTags Sprint (fields.erase logrus.ErrorKey) = makeTags Sprint fields := by
  apply Finmap.ext_lookup
  intro k
  rw [makeTags_lookup, makeTags_lookup]
  by_cases hk : k = logrus.ErrorKey
  · simp [hk]
  · simp only [hk, if_false]
    rw [AList.lookup_erase_ne hk]

/-! ## The claims -/

/-- C1: in every hook reached from `New client` by a finite sequence of
`SetAsync`, `SetSync` and `Fire` calls, with any arguments and whether or not
the calls return an error, no level is in both `asyncLevels` and `syncLevels`. -/
theorem C1_levels_disjoint {S V : Type} (levelString : logrus.Level → String)
    (DefaultClient : S) (client : Option S) (ops : List (Op V)) (L : logrus.Level) :
    ¬ (L ∈ (run levelString (New DefaultClient client) ops).asyncLevels ∧
       L ∈ (run levelString (New DefaultClient client) ops).syncLevels) := by
  have h := run_disjoint levelString ops (New DefaultClient client)
    (by simp [New])
  intro hL
  exact Finset.disjoint_left.mp h hL.1 hL.2

/-- C2: `Fire` routes by level. When the level of the entry is in `asyncLevels`
it makes exactly one call on the sender, a non-waiting one; otherwise, when the
level is in `syncLevels`, exactly one call on the sender, a waiting one;
otherwise it makes no call at all. -/
theorem C2_Fire_routes_by_level {S V E : Type} (Sprint : V → String)
    (asError : V → Option E) (hook : SentryHook S) (entry : logrus.Entry V) :
    (entry.Level ∈ hook.asyncLevels →
      ∃ c, (Fire Sprint asError hook entry).1 = [(hook.sender, c)] ∧ c.waits = false) ∧
    (entry.Level ∉ hook.asyncLevels → entry.Level ∈ hook.syncLevels →
      ∃ c, (Fire Sprint asError hook entry).1 = [(hook.sender, c)] ∧ c.waits = true) ∧
    (entry.Level ∉ hook.asyncLevels → entry.Level ∉ hook.syncLevels →
      (Fire Sprint asError hook entry).1 = []) := by
  refine ⟨fun ha => ?_, fun ha hs => ?_, fun ha hs => ?_⟩
  · simp only [Fire, ha, if_true, sendAsync]
    cases loggedErr asError entry with
    | none => exact ⟨_, rfl, rfl⟩
    | some err => exact ⟨_, rfl, rfl⟩
  · simp only [Fire, ha, hs, if_true, if_false, sendSync]
    cases loggedErr asError entry with
    | none => exact ⟨_, rfl, rfl⟩
    | some err => exact ⟨_, rfl, rfl⟩
  · simp [Fire, ha, hs]

/-- C2, evaluated on the hook of the tests: an entry at the async level, one
at the sync level and one at an unregistered level. -/
theorem C2_Fire_routes_by_level_witness :
    (∃ c, (Fire GoValue.Sprint GoValue.asError testHook errorEntry).1 = [(testHook.sender, c)] ∧
      c.waits = false) ∧
    (∃ c, (Fire GoValue.Sprint GoValue.asError testHook panicEntry).1 = [(testHook.sender, c)] ∧
      c.waits = true) ∧
    (Fire GoValue.Sprint GoValue.asError testHook warnEntry).1 = [] :=
  ⟨(C2_Fire_routes_by_level GoValue.Sprint GoValue.asError testHook errorEntry).1 (by decide),
   (C2_Fire_routes_by_level GoValue.Sprint GoValue.asError testHook panicEntry).2.1
     (by decide) (by decide),
   (C2_Fire_routes_by_level GoValue.Sprint GoValue.asError testHook warnEntry).2.2
     (by decide) (by decide)⟩

/-- C3: `Fire` returns no error, for every hook and every entry. -/
theorem C3_Fire_returns_nil {S V E : Type} (Sprint : V → String)
    (asError : V → Option E) (hook : SentryHook S) (entry : logrus.Entry V) :
    (Fire Sprint asError hook entry).2 = none := by
  unfold Fire
  split_ifs <;> rfl

/-- C4: when the fields hold under the reserved key a value of error type,
`sendAsync` makes the one call `CaptureError` with that error, the tags of
`makeTags` and one `raven.Message` carrying the message of the entry; when the
key is absent or holds a value that is not of error type, it makes the one call
`CaptureMessage` with the message, the tags and no further argument. The same
holds for `sendSync` with `CaptureErrorAndWait` and `CaptureMessageAndWait`. -/
theorem C4_error_or_message {S V E : Type} (Sprint : V → String)
    (asError : V → Option E) (hook : SentryHook S) (entry : logrus.Entry V) :
    (∀ v e, entry.Data.lookup logrus.ErrorKey = some v → asError v = some e →
      sendAsync Sprint asError hook entry =
        [(hook.sender, SenderCall.CaptureError e (makeTags Sprint entry.Data)
          [raven.Interface.Message entry.Message])] ∧
      sendSync Sprint asError hook entry =
        [(hook.sender, SenderCall.CaptureErrorAndWait e (makeTags Sprint entry.Data)
          [raven.Interface.Message entry.Message])]) ∧
    ((entry.Data.lookup logrus.ErrorKey = none ∨
        ∃ v, entry.Data.lookup logrus.ErrorKey = some v ∧ asError v = none) →
      sendAsync Sprint asError hook entry =
        [(hook.sender, SenderCall.CaptureMessage entry.Message (makeTags Sprint entry.Data) [])] ∧
      sendSync Sprint asError hook entry =
        [(hook.sender,
          SenderCall.CaptureMessageAndWait entry.Message (makeTags Sprint entry.Data) [])]) := by
  refine ⟨fun v e hv he => ?_, fun h => ?_⟩
  · have hl : loggedErr asError entry = some e := by simp [loggedErr, hv, he]
    simp [sendAsync, sendSync, hl]
  · have hl : loggedErr asError entry = none := by
      rcases h with h | ⟨v, hv, he⟩
      · simp [loggedErr, h]
      · simp [loggedErr, hv, he]
    simp [sendAsync, sendSync, hl]

/-- C4, evaluated on an entry whose reserved key holds an error and on one
whose reserved key holds a string. -/
theorem C4_error_or_message_witness :
    (sendAsync GoValue.Sprint GoValue.asError testHook errorEntry =
        [(testHook.sender, SenderCall.CaptureError "some error"
          (makeTags GoValue.Sprint errorEntry.Data)
          [raven.Interface.Message errorEntry.Message])] ∧
      sendSync GoValue.Sprint GoValue.asError testHook errorEntry =
        [(testHook.sender, SenderCall.CaptureErrorAndWait "some error"
          (makeTags GoValue.Sprint errorEntry.Data)
          [raven.Interface.Message errorEntry.Message])]) ∧
    (sendAsync GoValue.Sprint GoValue.asError testHook panicEntry =
        [(testHook.sender, SenderCall.CaptureMessage panicEntry.Message
          (makeTags GoValue.Sprint panicEntry.Data) [])] ∧
      sendSync GoValue.Sprint GoValue.asError testHook panicEntry =
        [(testHook.sender, SenderCall.CaptureMessageAndWait panicEntry.Message
          (makeTags GoValue.Sprint panicEntry.Data) [])]) :=
  ⟨(C4_error_or_message GoValue.Sprint GoValue.asError testHook errorEntry).1
      (GoValue.errorString "some error") "some error" (by decide) (by decide),
   (C4_error_or_message GoValue.Sprint GoValue.asError testHook panicEntry).2
      (Or.inr ⟨GoValue.string "not an error", by decide, by decide⟩)⟩

/-- C5: the keys of `makeTags fields` are exactly the keys of `fields` other
than the reserved key, and each of them is mapped to the rendering of its field
value; so the reserved key is never a key of the result and every other field
key always is. On the fields of `TestMakeTags`, in whatever order the map is
iterated, the result is the map of `AAA` to `123` and `BBB` to `map[aaa:123]`. -/
theorem C5_makeTags {V : Type} (Sprint : V → String) (fields : logrus.Fields V) :
    (∀ k, k ∈ makeTags Sprint fields ↔ (k ∈ fields ∧ k ≠ logrus.ErrorKey)) ∧
    (∀ k v, k ≠ logrus.ErrorKey → fields.lookup k = some v →
      (makeTags Sprint fields).lookup k = some (Sprint v)) ∧
    logrus.ErrorKey ∉ makeTags Sprint fields ∧
    (∀ k, k ∈ fields → k ≠ logrus.ErrorKey → k ∈ makeTags Sprint fields) ∧
    (∀ testMap : logrus.Fields GoValue, testMap.entries.Perm testFields.entries →
      makeTags GoValue.Sprint testMap = wantTags) := by
  have hmem : ∀ k, k ∈ makeTags Sprint fields ↔ (k ∈ fields ∧ k ≠ logrus.ErrorKey) := by
    intro k
    rw [Finmap.mem_iff, makeTags_lookup, ← AList.lookup_isSome]
    by_cases hk : k = logrus.ErrorKey
    · simp [hk]
    · cases h : AList.lookup k fields <;> simp [hk]
  refine ⟨hmem, ?_, ?_, ?_, ?_⟩
  · intro k v hk hv
    rw [makeTags_lookup]
    simp [hk, hv]
  · intro h
    exact ((hmem _).mp h).2 rfl
  · intro k hk hne
    exact (hmem k).mpr ⟨hk, hne⟩
  · intro testMap hperm
    have hsame : makeTags GoValue.Sprint testMap = makeTags GoValue.Sprint testFields := by
      apply Finmap.ext_lookup
      intro k
      rw [makeTags_lookup, makeTags_lookup, AList.perm_lookup hperm]
    rw [hsame]
    decide

/-- C5, evaluated on the fields of `TestMakeTags`: the key `AAA` holds the
integer 123 and is rendered as `123`. -/
theorem C5_makeTags_witness :
    (makeTags GoValue.Sprint testFields).lookup "AAA" = some "123" ∧
    "BBB" ∈ makeTags GoValue.Sprint testFields ∧
    makeTags GoValue.Sprint testFields = wantTags :=
  ⟨(C5_makeTags GoValue.Sprint testFields).2.1 "AAA" (GoValue.int 123) (by decide) (by decide),
   (C5_makeTags GoValue.Sprint testFields).2.2.2.1 "BBB" (by decide) (by decide),
   (C5_makeTags GoValue.Sprint testFields).2.2.2.2 testFields (List.Perm.refl _)⟩

/-- C6: `SetAsync levels` returns an error exactly when some level of `levels`
is in `syncLevels` at the time of the call, and `SetSync levels` returns an
error exactly when some level of `levels` is in `asyncLevels` at the time of the
call; both return no error on the empty sequence. -/
theorem C6_conflict_iff {S : Type} (levelString : logrus.Level → String)
    (hook : SentryHook S) (levels : List logrus.Level) :
    ((SetAsync levelString hook levels).2 ≠ none ↔ ∃ l ∈ levels, l ∈ hook.syncLevels) ∧
    ((SetSync levelString hook levels).2 ≠ none ↔ ∃ l ∈ levels, l ∈ hook.asyncLevels) ∧
    (SetAsync levelString hook []).2 = none ∧
    (SetSync levelString hook []).2 = none := by
  refine ⟨?_, ?_, rfl, rfl⟩
  · rw [SetAsync_closed]
    simp [← Option.isSome_iff_ne_none, List.find?_isSome]
  · rw [SetSync_closed]
    simp [← Option.isSome_iff_ne_none, List.find?_isSome]

/-- C7: when `SetAsync L` returns no error, a `SetSync L` that follows at once
returns the conflict error; when `SetSync L` returns no error, a `SetAsync L`
that follows at once returns the conflict error. -/
theorem C7_mutual_exclusion {S : Type} (levelString : logrus.Level → String)
    (hook : SentryHook S) (L : logrus.Level) :
    ((SetAsync levelString hook [L]).2 = none →
      (SetSync levelString (SetAsync levelString hook [L]).1 [L]).2 =
        some ("Log level " ++ levelString L ++ " already in async levels")) ∧
    ((SetSync levelString hook [L]).2 = none →
      (SetAsync levelString (SetSync levelString hook [L]).1 [L]).2 =
        some ("Log level " ++ levelString L ++ " already in sync levels")) := by
  constructor
  · intro h
    by_cases hL : L ∈ hook.syncLevels
    · simp [SetAsync, hL] at h
    · simp [SetAsync, SetSync, hL]
  · intro h
    by_cases hL : L ∈ hook.asyncLevels
    · simp [SetSync, hL] at h
    · simp [SetAsync, SetSync, hL]

/-- C7, evaluated on a fresh hook and the error level. -/
theorem C7_mutual_exclusion_witness :
    (SetSync logrus.levelString
        (SetAsync logrus.levelString (New 0 none) [logrus.ErrorLevel]).1 [logrus.ErrorLevel]).2 =
      some ("Log level " ++ logrus.levelString logrus.ErrorLevel ++ " already in async levels") ∧
    (SetAsync logrus.levelString
        (SetSync logrus.levelString (New 0 none) [logrus.ErrorLevel]).1 [logrus.ErrorLevel]).2 =
      some ("Log level " ++ logrus.levelString logrus.ErrorLevel ++ " already in sync levels") :=
  ⟨(C7_mutual_exclusion logrus.levelString (New 0 none) logrus.ErrorLevel).1 (by decide),
   (C7_mutual_exclusion logrus.levelString (New 0 none) logrus.ErrorLevel).2 (by decide)⟩

/-- C8: after `SetAsync levels` the set `asyncLevels` is its old value united
with the levels of `levels` that come strictly before the first one that is in
`syncLevels` (all of them when there is none), while `syncLevels` and the sender
are as before; symmetrically for `SetSync` with the two sets exchanged. -/
theorem C8_registration_effect {S : Type} (levelString : logrus.Level → String)
    (hook : SentryHook S) (levels : List logrus.Level) :
    ((SetAsync levelString hook levels).1.asyncLevels =
        hook.asyncLevels ∪
          (levels.takeWhile (fun l => decide (l ∉ hook.syncLevels))).toFinset ∧
      (SetAsync levelString hook levels).1.syncLevels = hook.syncLevels ∧
      (SetAsync levelString hook levels).1.sender = hook.sender) ∧
    ((SetSync levelString hook levels).1.syncLevels =
        hook.syncLevels ∪
          (levels.takeWhile (fun l => decide (l ∉ hook.asyncLevels))).toFinset ∧
      (SetSync levelString hook levels).1.asyncLevels = hook.asyncLevels ∧
      (SetSync levelString hook levels).1.sender = hook.sender) := by
  rw [SetAsync_closed, SetSync_closed]
  exact ⟨⟨rfl, rfl, rfl⟩, ⟨rfl, rfl, rfl⟩⟩

/-- C9: for a level `L` in `syncLevels` the call `SetAsync L` returns an error
and leaves both sets as they were; for a level `L` in `asyncLevels` the call
`SetSync L` returns an error and leaves both sets as they were. -/
theorem C9_rejected_level_mutates_nothing {S : Type} (levelString : logrus.Level → String)
    (hook : SentryHook S) (L : logrus.Level) :
    (L ∈ hook.syncLevels →
      (SetAsync levelString hook [L]).2 ≠ none ∧
      (SetAsync levelString hook [L]).1.asyncLevels = hook.asyncLevels ∧
      (SetAsync levelString hook [L]).1.syncLevels = hook.syncLevels) ∧
    (L ∈ hook.asyncLevels →
      (SetSync levelString hook [L]).2 ≠ none ∧
      (SetSync levelString hook [L]).1.asyncLevels = hook.asyncLevels ∧
      (SetSync levelString hook [L]).1.syncLevels = hook.syncLevels) := by
  constructor
  · intro hL
    simp [SetAsync, hL]
  · intro hL
    simp [SetSync, hL]

/-- C9, evaluated on the hook of `TestSettingLevels`: the panic level is
registered as sync, the error level as async. -/
theorem C9_rejected_level_mutates_nothing_witness :
    ((SetAsync logrus.levelString testHook [logrus.PanicLevel]).2 ≠ none ∧
      (SetAsync logrus.levelString testHook [logrus.PanicLevel]).1.asyncLevels =
        testHook.asyncLevels ∧
      (SetAsync logrus.levelString testHook [logrus.PanicLevel]).1.syncLevels =
        testHook.syncLevels) ∧
    ((SetSync logrus.levelString testHook [logrus.ErrorLevel]).2 ≠ none ∧
      (SetSync logrus.levelString testHook [logrus.ErrorLevel]).1.asyncLevels =
        testHook.asyncLevels ∧
      (SetSync logrus.levelString testHook [logrus.ErrorLevel]).1.syncLevels =
        testHook.syncLevels) :=
  ⟨(C9_rejected_level_mutates_nothing logrus.levelString testHook logrus.PanicLevel).1
      (by decide),
   (C9_rejected_level_mutates_nothing logrus.levelString testHook logrus.ErrorLevel).2
      (by decide)⟩

/-- C10: whenever `SetAsync levels` returns an error, its text is
`Log level <name> already in sync levels` for the first level of `levels`, in
input order, that is in `syncLevels`; whenever `SetSync levels` returns an
error, its text is `Log level <name> already in async levels` for the first
level of `levels` that is in `asyncLevels`. With the error level registered as
async and the panic level as sync, `SetAsync` of the panic level gives
`Log level panic already in sync levels` and `SetSync` of the error level gives
`Log level error already in async levels`. -/
theorem C10_conflict_error_text {S : Type} (levelString : logrus.Level → String)
    (hook : SentryHook S) (levels : List logrus.Level) :
    (∀ e, (SetAsync levelString hook levels).2 = some e →
      ∃ before l rest, levels = before ++ l :: rest ∧
        (∀ x ∈ before, x ∉ hook.syncLevels) ∧ l ∈ hook.syncLevels ∧
        e = "Log level " ++ levelString l ++ " already in sync levels") ∧
    (∀ e, (SetSync levelString hook levels).2 = some e →
      ∃ before l rest, levels = before ++ l :: rest ∧
        (∀ x ∈ before, x ∉ hook.asyncLevels) ∧ l ∈ hook.asyncLevels ∧
        e = "Log level " ++ levelString l ++ " already in async levels") ∧
    (SetAsync logrus.levelString testHook [logrus.PanicLevel]).2 =
      some "Log level panic already in sync levels" ∧
    (SetSync logrus.levelString testHook [logrus.ErrorLevel]).2 =
      some "Log level error already in async levels" := by
  refine ⟨?_, ?_, by decide, by decide⟩
  · intro e he
    rw [SetAsync_closed] at he
    cases hfind : levels.find? (fun l => decide (l ∈ hook.syncLevels)) with
    | none => simp [hfind] at he
    | some l =>
      simp only [hfind, Option.map, Option.some.injEq] at he
      obtain ⟨hmem, before, rest, hsplit, hbefore⟩ := List.find?_eq_some.mp hfind
      refine ⟨before, l, rest, hsplit, ?_, by simpa using hmem, he.symm⟩
      intro x hx
      simpa using hbefore x hx
  · intro e he
    rw [SetSync_closed] at he
    cases hfind : levels.find? (fun l => decide (l ∈ hook.asyncLevels)) with
    | none => simp [hfind] at he
    | some l =>
      simp only [hfind, Option.map, Option.some.injEq] at he
      obtain ⟨hmem, before, rest, hsplit, hbefore⟩ := List.find?_eq_some.mp hfind
      refine ⟨before, l, rest, hsplit, ?_, by simpa using hmem, he.symm⟩
      intro x hx
      simpa using hbefore x hx

/-- C10, evaluated on the hook of `TestSettingLevels` and a call whose second
level is the first one in conflict. -/
theorem C10_conflict_error_text_witness :
    ∃ before l rest,
      [logrus.DebugLevel, logrus.PanicLevel, logrus.PanicLevel] = before ++ l :: rest ∧
      (∀ x ∈ before, x ∉ testHook.syncLevels) ∧ l ∈ testHook.syncLevels ∧
      "Log level panic already in sync levels" =
        "Log level " ++ logrus.levelString l ++ " already in sync levels" :=
  (C10_conflict_error_text logrus.levelString testHook
    [logrus.DebugLevel, logrus.PanicLevel, logrus.PanicLevel]).1
    "Log level panic already in sync levels" (by decide)

/-- C11: registration is idempotent. Calling `SetAsync levels` a second time
right after a first `SetAsync levels` returns the same result as the first call
and leaves the hook equal to the hook after the first call; in particular the
second call returns no error when the first returned none. The same holds for
`SetSync`. -/
theorem C11_registration_idempotent {S : Type} (levelString : logrus.Level → String)
    (hook : SentryHook S) (levels : List logrus.Level) :
    ((SetAsync levelString (SetAsync levelString hook levels).1 levels).2 =
        (SetAsync levelString hook levels).2 ∧
      (SetAsync levelString (SetAsync levelString hook levels).1 levels).1 =
        (SetAsync levelString hook levels).1 ∧
      ((SetAsync levelString hook levels).2 = none →
        (SetAsync levelString (SetAsync levelString hook levels).1 levels).2 = none)) ∧
    ((SetSync levelString (SetSync levelString hook levels).1 levels).2 =
        (SetSync levelString hook levels).2 ∧
      (SetSync levelString (SetSync levelString hook levels).1 levels).1 =
        (SetSync levelString hook levels).1 ∧
      ((SetSync levelString hook levels).2 = none →
        (SetSync levelString (SetSync levelString hook levels).1 levels).2 = none)) := by
  have hA : SetAsync levelString (SetAsync levelString hook levels).1 levels =
      SetAsync levelString hook levels := by
    rw [SetAsync_closed levelString hook levels, SetAsync_closed]
    simp [Finset.union_assoc]
  have hS : SetSync levelString (SetSync levelString hook levels).1 levels =
      SetSync levelString hook levels := by
    rw [SetSync_closed levelString hook levels, SetSync_closed]
    simp [Finset.union_assoc]
  refine ⟨⟨?_, ?_, fun h => ?_⟩, ⟨?_, ?_, fun h => ?_⟩⟩
  · rw [hA]
  · rw [hA]
  · rw [hA, h]
  · rw [hS]
  · rw [hS]
  · rw [hS, h]

/-- C11, evaluated on a fresh hook: registering the error and the info level as
async twice in a row returns no error the second time. -/
theorem C11_registration_idempotent_witness :
    (SetAsync logrus.levelString
      (SetAsync logrus.levelString (New 0 none) [logrus.ErrorLevel, logrus.InfoLevel]).1
      [logrus.ErrorLevel, logrus.InfoLevel]).2 = none ∧
    (SetSync logrus.levelString
      (SetSync logrus.levelString (New 0 none) [logrus.ErrorLevel, logrus.InfoLevel]).1
      [logrus.ErrorLevel, logrus.InfoLevel]).2 = none :=
  ⟨(C11_registration_idempotent logrus.levelString (New 0 none)
      [logrus.ErrorLevel, logrus.InfoLevel]).1.2.2 (by decide),
   (C11_registration_idempotent logrus.levelString (New 0 none)
      [logrus.ErrorLevel, logrus.InfoLevel]).2.2.2 (by decide)⟩

/-- C12: a level occurs in the sequence returned by `Levels` exactly when it is
in `asyncLevels` or in `syncLevels`, whatever the iteration order of the two
loops; on a hook fresh from `New` the sequence is empty. -/
theorem C12_Levels_is_union {S : Type} (hook : SentryHook S)
    (asyncRange : RangeOrder hook.asyncLevels) (syncRange : RangeOrder hook.syncLevels)
    (DefaultClient : S) (client : Option S)
    (freshAsync : RangeOrder (New DefaultClient client).asyncLevels)
    (freshSync : RangeOrder (New DefaultClient client).syncLevels) :
    (∀ L, L ∈ Levels hook asyncRange syncRange ↔
      (L ∈ hook.asyncLevels ∨ L ∈ hook.syncLevels)) ∧
    Levels (New DefaultClient client) freshAsync freshSync = [] := by
  constructor
  · intro L
    rw [Levels_closed, List.mem_append, asyncRange.mem_keys, syncRange.mem_keys]
  · have hA : freshAsync.keys = [] :=
      List.eq_nil_iff_forall_not_mem.mpr
        (fun l hl => Finset.not_mem_empty l ((freshAsync.mem_keys l).mp hl))
    have hS : freshSync.keys = [] :=
      List.eq_nil_iff_forall_not_mem.mpr
        (fun l hl => Finset.not_mem_empty l ((freshSync.mem_keys l).mp hl))
    rw [Levels_closed, hA, hS]
    rfl

/-- C13: `New client` returns a hook whose two level sets are empty and whose
sender is the given client when one is supplied and `raven.DefaultClient` when
the argument is nil. -/
theorem C13_New {S : Type} (DefaultClient : S) (client : Option S) :
    (New DefaultClient client).asyncLevels = ∅ ∧
    (New DefaultClient client).syncLevels = ∅ ∧
    (∀ c, client = some c → (New DefaultClient client).sender = c) ∧
    (client = none → (New DefaultClient client).sender = DefaultClient) := by
  refine ⟨rfl, rfl, ?_, ?_⟩
  · intro c hc
    subst hc
    rfl
  · intro hc
    subst hc
    rfl

/-- C13, evaluated with the default client numbered 0 and a supplied client
numbered 7. -/
theorem C13_New_witness :
    (New 0 (some 7)).sender = 7 ∧ (New 0 none).sender = 0 :=
  ⟨(C13_New 0 (some 7)).2.2.1 7 rfl, (C13_New 0 none).2.2.2 rfl⟩

/-- C14: the two send paths differ only in the client method. For every hook
and entry `sendAsync` makes one call on the sender, a non-waiting one, and
`sendSync` makes the same call on the same sender with the same arguments,
except that `CaptureMessage` is replaced by `CaptureMessageAndWait` and
`CaptureError` by `CaptureErrorAndWait`. -/
theorem C14_send_paths_same_call {S V E : Type} (Sprint : V → String)
    (asError : V → Option E) (hook : SentryHook S) (entry : logrus.Entry V) :
    (∃ c, sendAsync Sprint asError hook entry = [(hook.sender, c)] ∧
      c.waits = false ∧
      sendSync Sprint asError hook entry = [(hook.sender, c.andWait)]) ∧
    sendSync Sprint asError hook entry =
      (sendAsync Sprint asError hook entry).map (fun call => (call.1, call.2.andWait)) := by
  unfold sendAsync sendSync
  cases loggedErr asError entry with
  | none => exact ⟨⟨_, rfl, rfl, rfl⟩, rfl⟩
  | some err => exact ⟨⟨_, rfl, rfl, rfl⟩, rfl⟩

/-- C15: for every hook the sequence returned by `Levels` is an enumeration of
`asyncLevels` followed by an enumeration of `syncLevels`, so each level of
`asyncLevels` occurs at a position before each level of `syncLevels`. After
`SetAsync` of the error level and `SetSync` of the panic level on a fresh hook
the sequence is exactly the error level followed by the panic level. -/
theorem C15_Levels_order {S : Type} (hook : SentryHook S)
    (asyncRange : RangeOrder hook.asyncLevels) (syncRange : RangeOrder hook.syncLevels)
    (testAsync : RangeOrder testHook.asyncLevels) (testSync : RangeOrder testHook.syncLevels) :
    (∃ first second, Levels hook asyncRange syncRange = first ++ second ∧
      first.Nodup ∧ (∀ l, l ∈ first ↔ l ∈ hook.asyncLevels) ∧
      second.Nodup ∧ (∀ l, l ∈ second ↔ l ∈ hook.syncLevels)) ∧
    (∀ a b, a ∈ hook.asyncLevels → b ∈ hook.syncLevels →
      ∃ i j : Nat, i < j ∧ (Levels hook asyncRange syncRange)[i]? = some a ∧
        (Levels hook asyncRange syncRange)[j]? = some b) ∧
    Levels testHook testAsync testSync = [logrus.ErrorLevel, logrus.PanicLevel] := by
  refine ⟨?_, ?_, ?_⟩
  · exact ⟨asyncRange.keys, syncRange.keys, Levels_closed hook asyncRange syncRange,
      asyncRange.nodup, asyncRange.mem_keys, syncRange.nodup, syncRange.mem_keys⟩
  · intro a b ha hb
    obtain ⟨i, hi⟩ := List.mem_iff_getElem?.mp ((asyncRange.mem_keys a).mpr ha)
    obtain ⟨j, hj⟩ := List.mem_iff_getElem?.mp ((syncRange.mem_keys b).mpr hb)
    have hilt : i < asyncRange.keys.length := by
      by_contra hge
      rw [List.getElem?_eq_none (Nat.le_of_not_lt hge)] at hi
      exact Option.noConfusion hi
    refine ⟨i, asyncRange.keys.length + j, by omega, ?_, ?_⟩
    · rw [Levels_closed, List.getElem?_append_left hilt, hi]
    · rw [Levels_closed, List.getElem?_append_right (Nat.le_add_right _ _)]
      simpa using hj
  · have hA : testHook.asyncLevels = {logrus.ErrorLevel} := by decide
    have hS : testHook.syncLevels = {logrus.PanicLevel} := by decide
    rw [Levels_closed, testAsync.keys_singleton hA, testSync.keys_singleton hS]
    rfl

/-- C15, evaluated on the hook of `TestGetLevels`: the error level is at a
position before the panic level. -/
theorem C15_Levels_order_witness :
    ∃ i j : Nat, i < j ∧
      (Levels testHook testAsyncRange testSyncRange)[i]? = some logrus.ErrorLevel ∧
      (Levels testHook testAsyncRange testSyncRange)[j]? = some logrus.PanicLevel :=
  (C15_Levels_order testHook testAsyncRange testSyncRange testAsyncRange testSyncRange).2.1
    logrus.ErrorLevel logrus.PanicLevel (by decide) (by decide)

/-- C16: registrations are permanent. A level that is in `asyncLevels` before a
call of `SetAsync`, `SetSync` or `Fire` is in `asyncLevels` after it, whether or
not the call returns an error, and likewise for `syncLevels`; hence once a level
is registered as async, every later `SetSync` whose arguments contain it returns
an error, however many calls lie in between, and symmetrically. -/
theorem C16_registrations_permanent {S V : Type} (levelString : logrus.Level → String)
    (hook : SentryHook S) (L : logrus.Level) :
    (∀ op : Op V,
      (L ∈ hook.asyncLevels → L ∈ (step levelString hook op).asyncLevels) ∧
      (L ∈ hook.syncLevels → L ∈ (step levelString hook op).syncLevels)) ∧
    (∀ (ops : List (Op V)) (levels : List logrus.Level),
      L ∈ hook.asyncLevels → L ∈ levels →
        (SetSync levelString (run levelString hook ops) levels).2 ≠ none) ∧
    (∀ (ops : List (Op V)) (levels : List logrus.Level),
      L ∈ hook.syncLevels → L ∈ levels →
        (SetAsync levelString (run levelString hook ops) levels).2 ≠ none) := by
  refine ⟨fun op => ?_, fun ops levels hL hmem => ?_, fun ops levels hL hmem => ?_⟩
  · exact ⟨fun h => (step_mono levelString hook op).1 h,
      fun h => (step_mono levelString hook op).2 h⟩
  · have hlater : L ∈ (run levelString hook ops).asyncLevels :=
      (run_mono levelString ops hook).1 hL
    rw [SetSync_closed]
    intro hnone
    cases hfind : levels.find?
        (fun l => decide (l ∈ (run levelString hook ops).asyncLevels)) with
    | none =>
      have hnot := List.find?_eq_none.mp hfind L hmem
      simp only [decide_eq_true_eq] at hnot
      exact hnot hlater
    | some l =>
      rw [hfind] at hnone
      simp at hnone
  · have hlater : L ∈ (run levelString hook ops).syncLevels :=
      (run_mono levelString ops hook).2 hL
    rw [SetAsync_closed]
    intro hnone
    cases hfind : levels.find?
        (fun l => decide (l ∈ (run levelString hook ops).syncLevels)) with
    | none =>
      have hnot := List.find?_eq_none.mp hfind L hmem
      simp only [decide_eq_true_eq] at hnot
      exact hnot hlater
    | some l =>
      rw [hfind] at hnone
      simp at hnone

/-- C16, evaluated on the hook of `TestSettingLevels`: the error level stays
registered as async through three further calls, and a `SetSync` that names it
afterwards returns an error. -/
theorem C16_registrations_permanent_witness :
    (SetSync logrus.levelString
      (run logrus.levelString testHook
        [Op.SetAsync [logrus.InfoLevel], Op.Fire errorEntry, Op.SetSync [logrus.DebugLevel]])
      [logrus.WarnLevel, logrus.ErrorLevel]).2 ≠ none :=
  (C16_registrations_permanent logrus.levelString testHook logrus.ErrorLevel).2.1
    [Op.SetAsync [logrus.InfoLevel], Op.Fire errorEntry, Op.SetSync [logrus.DebugLevel]]
    [logrus.WarnLevel, logrus.ErrorLevel] (by decide) (by decide)

/-- C17: on every hook reached from `New client` by a sequence of `SetAsync`,
`SetSync` and `Fire` calls, the sequence returned by `Levels` holds each level
at most once, and its length is the number of levels in `asyncLevels` plus the
number of levels in `syncLevels`. -/
theorem C17_Levels_nodup {S V : Type} (levelString : logrus.Level → String)
    (DefaultClient : S) (client : Option S) (ops : List (Op V))
    (asyncRange : RangeOrder (run levelString (New DefaultClient client) ops).asyncLevels)
    (syncRange : RangeOrder (run levelString (New DefaultClient client) ops).syncLevels) :
    (Levels (run levelString (New DefaultClient client) ops) asyncRange syncRange).Nodup ∧
    (∀ L, (Levels (run levelString (New DefaultClient client) ops)
      asyncRange syncRange).count L ≤ 1) ∧
    (Levels (run levelString (New DefaultClient client) ops) asyncRange syncRange).length =
      (run levelString (New DefaultClient client) ops).asyncLevels.card +
      (run levelString (New DefaultClient client) ops).syncLevels.card := by
  have hdisj := run_disjoint levelString ops (New DefaultClient client) (by simp [New])
  have hnodup :
      (Levels (run levelString (New DefaultClient client) ops) asyncRange syncRange).Nodup := by
    rw [Levels_closed, List.nodup_append]
    refine ⟨asyncRange.nodup, syncRange.nodup, ?_⟩
    intro l hA hS
    exact Finset.disjoint_left.mp hdisj ((asyncRange.mem_keys l).mp hA)
      ((syncRange.mem_keys l).mp hS)
  refine ⟨hnodup, fun L => List.nodup_iff_count_le_one.mp hnodup L, ?_⟩
  rw [Levels_closed, List.length_append, asyncRange.length_keys, syncRange.length_keys]

/-- C18: on every hook reached from `New client` by a sequence of `SetAsync`,
`SetSync` and `Fire` calls and for every entry, `Fire` makes the same sender
calls and returns the same result as the variant that tests `syncLevels` first
and `asyncLevels` second. -/
theorem C18_Fire_test_order {S V E : Type} (levelString : logrus.Level → String)
    (Sprint : V → String) (asError : V → Option E)
    (DefaultClient : S) (client : Option S) (ops : List (Op V)) (entry : logrus.Entry V) :
    Fire Sprint asError (run levelString (New DefaultClient client) ops) entry =
      FireSyncFirst Sprint asError (run levelString (New DefaultClient client) ops) entry := by
  have hdisj := run_disjoint levelString ops (New DefaultClient client) (by simp [New])
  unfold Fire FireSyncFirst
  by_cases hA : entry.Level ∈ (run levelString (New DefaultClient client) ops).asyncLevels
  · have hS : entry.Level ∉ (run levelString (New DefaultClient client) ops).syncLevels :=
      fun h => Finset.disjoint_left.mp hdisj hA h
    simp [hA, hS]
  · by_cases hS : entry.Level ∈ (run levelString (New DefaultClient client) ops).syncLevels
    · simp [hA, hS]
    · simp [hA, hS]

/-- The two orders of the membership tests differ on a hook whose sets overlap,
which is why the comparison is made on reached hooks only. -/
theorem Fire_test_order_on_overlap :
    Fire GoValue.Sprint GoValue.asError overlapHook errorEntry ≠
      FireSyncFirst GoValue.Sprint GoValue.asError overlapHook errorEntry := by
  decide

/-- C19: a value that is not of error type and is stored under the reserved key
is dropped. For an entry at a registered level whose fields map the reserved key
to such a value, `Fire` makes one call on the sender, a message call whose
message is the message of the entry, without further argument and with a tag map
that has no reserved key; the call is the one `Fire` makes when the reserved key
is erased from the fields, so the value reaches none of the arguments. -/
theorem C19_non_error_value_dropped {S V E : Type} (Sprint : V → String)
    (asError : V → Option E) (hook : SentryHook S) (entry : logrus.Entry V) (v : V)
    (hregistered : entry.Level ∈ hook.asyncLevels ∨ entry.Level ∈ hook.syncLevels)
    (hvalue : entry.Data.lookup logrus.ErrorKey = some v) (hnoerr : asError v = none) :
    (∃ c, (Fire Sprint asError hook entry).1 = [(hook.sender, c)] ∧
      c.isMessage = true ∧
      (c = SenderCall.CaptureMessage entry.Message (makeTags Sprint entry.Data) [] ∨
        c = SenderCall.CaptureMessageAndWait entry.Message (makeTags Sprint entry.Data) [])) ∧
    logrus.ErrorKey ∉ makeTags Sprint entry.Data ∧
    makeTags Sprint entry.Data = makeTags Sprint (entry.Data.erase logrus.ErrorKey) ∧
    Fire Sprint asError hook entry =
      Fire Sprint asError hook { entry with Data := entry.Data.erase logrus.ErrorKey } := by
  have hl : loggedErr asError entry = none := by simp [loggedErr, hvalue, hnoerr]
  have hl2 : loggedErr asError { entry with Data := entry.Data.erase logrus.ErrorKey } =
      none := by
    simp [loggedErr]
  have hkey : logrus.ErrorKey ∉ makeTags Sprint entry.Data := by
    rw [Finmap.mem_iff, makeTags_lookup]
    simp
  refine ⟨?_, hkey, (makeTags_erase Sprint entry.Data).symm, ?_⟩
  · by_cases hA : entry.Level ∈ hook.asyncLevels
    · exact ⟨SenderCall.CaptureMessage entry.Message (makeTags Sprint entry.Data) [],
        by simp only [Fire, hA, if_true, sendAsync, hl], rfl, Or.inl rfl⟩
    · have hS : entry.Level ∈ hook.syncLevels := hregistered.resolve_left hA
      exact ⟨SenderCall.CaptureMessageAndWait entry.Message (makeTags Sprint entry.Data) [],
        by simp only [Fire, hA, hS, if_true, if_false, sendSync, hl], rfl, Or.inr rfl⟩
  · simp only [Fire, sendAsync, sendSync, hl, hl2, makeTags_erase]

/-- C19, evaluated on the hook of the tests and an entry at the panic level
whose reserved key holds a string. -/
theorem C19_non_error_value_dropped_witness :
    (Fire GoValue.Sprint GoValue.asError testHook panicEntry).1 =
        [(testHook.sender,
          SenderCall.CaptureMessageAndWait "some message" (∅ : Tags) [])] ∧
      logrus.ErrorKey ∉ makeTags GoValue.Sprint panicEntry.Data :=
  ⟨by
    have h := (C19_non_error_value_dropped GoValue.Sprint GoValue.asError testHook panicEntry
      (GoValue.string "not an error") (by decide) (by decide) (by decide)).2.2.2
    rw [h]
    decide,
   (C19_non_error_value_dropped GoValue.Sprint GoValue.asError testHook panicEntry
      (GoValue.string "not an error") (by decide) (by decide) (by decide)).2.1⟩

end sentryhook
